import Mathlib

/-!
Verification of the spreadsheet-merge engine of `src/lib/excel-utils.ts`.

The TypeScript source is shallowly embedded: ExcelJS cell values become the
inductive `CellValue`, cells carry their style attributes, rows are lists of
cells (1-based column access via `getCell`), sheets are lists of rows
(1-based row access via `getRow`), and workbooks are lists of named sheets.
JavaScript numbers are modelled as exact rationals, and the JS string
operations used by the code (`toString`, `trim`, `toUpperCase`,
`toLowerCase`, `includes`, `replace(/,/g,'')`, `Number(...)`) are modelled
by executable Lean functions.  Every function of the source that the claims
touch is translated 1:1; output rows of the merge carry a provenance tag
(source file index, sheet index, row number, and the branch that copied
them) so that ordering and origin properties can be stated.
-/

namespace ExcelUtils

/-- A primitive scalar as it appears as the cached `result` of a formula
cell: a string, a number, a boolean or a `Date`.  A `result` field of
`none` stands for the JS `undefined`/`null` results, both of which
`cell.result ?? null` turns into `null`. -/
inductive PrimValue where
  | pStr (s : String) : PrimValue
  | pNum (q : ℚ) : PrimValue
  | pBool (b : Bool) : PrimValue
  | pDate (d : ℕ) : PrimValue
deriving DecidableEq, Repr

/-- The raw value stored in an ExcelJS cell (`cell.value`).
`vNull` is JS `null`/`undefined`; `vStr`/`vNum`/`vBool` are the JS
primitives; the remaining constructors are the structured object shapes
ExcelJS uses: `Date` objects, `{formula, result?}`, `{sharedFormula,
result?}`, `{richText: [...]}`, `{text?, hyperlink}` and `{error}`. -/
inductive CellValue where
  | vNull : CellValue
  | vStr (s : String) : CellValue
  | vNum (q : ℚ) : CellValue
  | vBool (b : Bool) : CellValue
  | vDate (d : ℕ) : CellValue
  | vFormula (formula : String) (result : Option PrimValue) : CellValue
  | vSharedFormula (formula : String) (result : Option PrimValue) : CellValue
  | vRich (runs : List String) : CellValue
  | vHyperlink (text : Option String) (target : String) : CellValue
  | vError (err : String) : CellValue
deriving DecidableEq, Repr

/-- Inject a cached formula result back into the value universe (the JS
code just returns the result object itself). -/
def PrimValue.toCellValue : PrimValue → CellValue
  | .pStr s => .vStr s
  | .pNum q => .vNum q
  | .pBool b => .vBool b
  | .pDate d => .vDate d

/-- An ExcelJS cell: its value plus the style attributes that
`copyRowWithFormatting` copies (font, fill, alignment, border as opaque
handles, `numFmt` as a string). -/
structure Cell where
  value : CellValue := .vNull
  font : Option ℕ := none
  fill : Option ℕ := none
  alignment : Option ℕ := none
  border : Option ℕ := none
  numFmt : Option String := none
deriving DecidableEq, Repr

def emptyCell : Cell := {}

/-- A row: cells listed from column 1; absent columns read as empty cells. -/
abbrev Row := List Cell

/-- A sheet: rows listed from row 1; absent rows read as empty rows. -/
abbrev Sheet := List Row

/-- A workbook: sheets in order, each with its name. -/
abbrev Workbook := List (String × Sheet)

/-- `row.getCell(colIndex)` — 1-based column access; a cell beyond the
stored cells is an (empty) fresh cell, as ExcelJS materialises it. -/
def getCell (r : Row) (c : ℕ) : Cell := r.getD (c - 1) emptyCell

/-- `worksheet.getRow(rowNum)` — 1-based row access. -/
def getRow (s : Sheet) (n : ℕ) : Row := s.getD (n - 1) []

/-- A row "has values" in the ExcelJS sense: some cell value is non-null.
`eachRow` (without `includeEmpty`) visits exactly these rows. -/
def rowHasValues (r : Row) : Bool := r.any (fun c => c.value != .vNull)

/-- `worksheet.lastRow?.number || 0`: the number of the last row that has
values, or `0` when there is none. -/
def lastRowNumber (s : Sheet) : ℕ :=
  (s.enum.filter (fun p => rowHasValues p.2)).foldr (fun p m => max (p.1 + 1) m) 0

/-! ## JS string helpers used by the classifiers -/

/-- JS `String(value)` / `value.toString()` for a (non-null) cell value.
Structured object values stringify as `"[object Object]"`; numbers
stringify via the rational's decimal/fraction rendering (only digits,
`-`, `.` and `/` — in particular never letters). -/
def jsToString : CellValue → String
  | .vNull => ""
  | .vStr s => s
  | .vNum q => toString q
  | .vBool b => cond b "true" "false"
  | .vDate d => "@" ++ toString d
  | .vFormula _ _ => "[object Object]"
  | .vSharedFormula _ _ => "[object Object]"
  | .vRich _ => "[object Object]"
  | .vHyperlink _ _ => "[object Object]"
  | .vError _ => "[object Object]"

/-- JS `s.trim()`: strip whitespace from both ends. -/
def jsTrim (s : String) : String :=
  String.mk (((s.data.dropWhile Char.isWhitespace).reverse.dropWhile Char.isWhitespace).reverse)

/-- JS `s.toUpperCase()` (on the ASCII letters the classifiers compare). -/
def jsToUpper (s : String) : String := String.mk (s.data.map Char.toUpper)

/-- JS `s.toLowerCase()` (on the ASCII letters the classifiers compare). -/
def jsToLower (s : String) : String := String.mk (s.data.map Char.toLower)

/-- JS `haystack.includes(needle)`. -/
def jsIncludes (hay needle : String) : Bool := decide (needle.data <:+: hay.data)

/-- JS `s.replace(/,/g, '')`. -/
def jsStripCommas (s : String) : String := String.mk (s.data.filter (fun ch => ch ≠ ','))

/-- A decimal numeral parser standing for JS `Number(s)` on the trimmed,
comma-stripped strings the subtotal heuristic feeds it: the empty string
is `0`, otherwise an optional sign followed by digits with an optional
decimal point.  Returns `none` where JS yields `NaN`. -/
def jsParseNumber (s : String) : Option ℚ :=
  if s = "" then some 0
  else
    let (neg, body) :=
      match s.data with
      | '-' :: rest => (true, rest)
      | '+' :: rest => (false, rest)
      | l => (false, l)
    let intPart := body.takeWhile Char.isDigit
    let rest := body.dropWhile Char.isDigit
    let fracPart :=
      match rest with
      | '.' :: tl => if tl.all Char.isDigit then some tl else none
      | [] => some []
      | _ => none
    match fracPart with
    | none => none
    | some frac =>
      if intPart = [] ∧ frac = [] then none
      else
        let digitsVal (l : List Char) : ℕ := l.foldl (fun a ch => a * 10 + (ch.toNat - 48)) 0
        let mag : ℚ := (digitsVal intPart : ℚ) + (digitsVal frac : ℚ) / ((10 : ℚ) ^ frac.length)
        some (if neg then -mag else mag)

/-- `!isNaN(Number(strValue.replace(/,/g, '')))` — the numeric-string test
of the subtotal heuristic. -/
def strLooksNumeric (s : String) : Bool := (jsParseNumber (jsStripCommas s)).isSome

/-! ## Row classifiers -/

/-- One cell of `findTotalRow`'s `eachCell` body:
`cell.value?.toString().trim().toUpperCase() === 'TOTAL'`. -/
def cellIsTotal (c : Cell) : Bool :=
  match c.value with
  | .vNull => false
  | v => jsToUpper (jsTrim (jsToString v)) = "TOTAL"

/-- The shared shape of `findTotalRow` / `findSignatureRow`: ExcelJS
`eachRow` over the rows that have values, in row order, with the
source's one-shot found-flag (`if (totalRow) return`) made explicit as an
early return: the first matching row number wins.  `i` is the number of
the next row to visit. -/
def eachRowFindFrom (p : Row → Bool) : ℕ → List Row → Option ℕ
  | _, [] => none
  | i, r :: rest =>
    if rowHasValues r ∧ p r then some i else eachRowFindFrom p (i + 1) rest

def eachRowFind (p : Row → Bool) (s : Sheet) : Option ℕ := eachRowFindFrom p 1 s

/-- `findTotalRow(worksheet)` of `src/lib/excel-utils.ts`. -/
def findTotalRow (s : Sheet) : Option ℕ :=
  eachRowFind (fun r => r.any cellIsTotal) s

/-- The signature keywords of `findSignatureRow`. -/
def signatureKeywords : List String :=
  ["người lập phiếu", "người nhận", "signature of sender",
   "chữ ký người gửi", "signature", "chữ ký"]

/-- One cell of `findSignatureRow`'s `eachCell` body: lower-cased trimmed
text, skipped when falsy, matched by `includes` against the keywords. -/
def cellIsSignature (c : Cell) : Bool :=
  match c.value with
  | .vNull => false
  | v =>
    let t := jsToLower (jsTrim (jsToString v))
    if t = "" then false
    else signatureKeywords.any (fun kw => jsIncludes t kw)

/-- `findSignatureRow(worksheet)` of `src/lib/excel-utils.ts`. -/
def findSignatureRow (s : Sheet) : Option ℕ :=
  eachRowFind (fun r => r.any cellIsSignature) s

/-- The cell classification of `isSubtotalRow`'s loop body, acting on the
running `(emptyCellCount, numericCellCount, textCellCount)` triple:
null/undefined/`''` → empty; a number → numeric; otherwise by the
trimmed string: empty, numeric-looking, or text. -/
def subtotalStrStep (acc : ℕ × ℕ × ℕ) (strValue : String) : ℕ × ℕ × ℕ :=
  let (e, n, t) := acc
  if strValue = "" then (e + 1, n, t)
  else if strLooksNumeric strValue then (e, n + 1, t)
  else (e, n, t + 1)

def subtotalStep (acc : ℕ × ℕ × ℕ) (cellValue : CellValue) : ℕ × ℕ × ℕ :=
  let (e, n, t) := acc
  match cellValue with
  | .vNull => (e + 1, n, t)
  | .vStr s => if s = "" then (e + 1, n, t) else subtotalStrStep acc (jsTrim s)
  | .vNum _ => (e, n + 1, t)
  | v => subtotalStrStep acc (jsTrim (jsToString v))

/-- `isSubtotalRow(row, startCol, endCol)` of `src/lib/excel-utils.ts`:
count empty / numeric / text cells over the column window, then apply the
70% empties + 1..3 numerics + no text rule. -/
def isSubtotalRow (r : Row) (startCol endCol : ℕ) : Bool :=
  let counts :=
    (List.range' startCol (endCol + 1 - startCol)).foldl
      (fun acc colIndex => subtotalStep acc (getCell r colIndex).value)
      (0, 0, 0)
  let totalCells := endCol + 1 - startCol
  let emptyRatio : ℚ := (counts.1 : ℚ) / (totalCells : ℚ)
  decide (emptyRatio ≥ 7 / 10) && decide (1 ≤ counts.2.1) && decide (counts.2.1 ≤ 3)
    && decide (counts.2.2 = 0)

/-! ## Column codec -/

/-- `columnLetterToNumber(letter)` of `src/lib/excel-utils.ts`:
`result = result * 26 + charCode - 64` over the letters. -/
def columnLetterToNumber (letter : String) : ℕ :=
  letter.data.foldl (fun result ch => result * 26 + ch.toNat - 64) 0

/-- The body of `columnNumberToLetter`'s `while (num > 0)` loop, with an
explicit fuel bound on the number of iterations (`num` strictly decreases
through `num := ⌊(num-1)/26⌋`, so `num` itself bounds the loop). -/
def columnNumberToLetterAux : ℕ → ℕ → List Char
  | 0, _ => []
  | _ + 1, 0 => []
  | fuel + 1, num + 1 =>
    columnNumberToLetterAux fuel (num / 26) ++ [Char.ofNat (65 + num % 26)]

/-- `columnNumberToLetter(num)` of `src/lib/excel-utils.ts`. -/
def columnNumberToLetter (num : ℕ) : String :=
  String.mk (columnNumberToLetterAux num num)

/-! ## Cell value extraction -/

/-- `extractSafeCellValue(cell)` of `src/lib/excel-utils.ts`, branch by
branch on the value's shape (ExcelJS derives `cell.type` from that shape,
and `cell.result` reads the `result` field of formula shapes):
null/undefined → null; formula-typed → `cell.result ?? null`; rich text →
the concatenated runs; other objects → their `result`/`text`/`richText`
field if present, else null (so `Date` and error objects degrade to
null); primitives are returned as they are.  `none` is the JS `null`
return. -/
def extractSafeCellValue : CellValue → Option CellValue
  | .vNull => none
  | .vFormula _ result => result.map PrimValue.toCellValue
  | .vSharedFormula _ result => result.map PrimValue.toCellValue
  | .vRich runs => some (.vStr (String.join runs))
  | .vDate _ => none
  | .vHyperlink text _ =>
    match text with
    | some t => some (.vStr t)
    | none => none
  | .vError _ => none
  | .vStr s => some (.vStr s)
  | .vNum q => some (.vNum q)
  | .vBool b => some (.vBool b)

/-! ## Row copying -/

/-- Pad a row with empty cells up to `n` stored cells (ExcelJS
materialises missing cells on `getCell`). -/
def padTo (r : Row) (n : ℕ) : Row := r ++ List.replicate (n - r.length) emptyCell

/-- Store a cell at 1-based column `c`. -/
def setCell (r : Row) (c : ℕ) (cell : Cell) : Row := (padTo r c).set (c - 1) cell

/-- The body of `copyRowWithFormatting`'s per-column loop: extract the
source value, assign it if non-null, then copy each style attribute
whose source field is truthy (`numFmt` is a string, so the empty string
is falsy). -/
def copyCellInto (sourceCell targetCell : Cell) : Cell :=
  let cellValue := extractSafeCellValue sourceCell.value
  let t := match cellValue with
    | some v => { targetCell with value := v }
    | none => targetCell
  let t := if sourceCell.font.isSome then { t with font := sourceCell.font } else t
  let t := if sourceCell.fill.isSome then { t with fill := sourceCell.fill } else t
  let t := if sourceCell.alignment.isSome then { t with alignment := sourceCell.alignment } else t
  let t := if sourceCell.border.isSome then { t with border := sourceCell.border } else t
  let t := if sourceCell.numFmt.isSome ∧ sourceCell.numFmt ≠ some "" then
      { t with numFmt := sourceCell.numFmt } else t
  t

/-- `copyRowWithFormatting(sourceRow, targetRow, startCol, endCol)` of
`src/lib/excel-utils.ts`: for each column of the window, update the
target cell at the same column index from the source cell. -/
def copyRowWithFormatting (sourceRow targetRow : Row) (startCol endCol : ℕ) : Row :=
  (List.range' startCol (endCol + 1 - startCol)).foldl
    (fun t colIndex => setCell t colIndex (copyCellInto (getCell sourceRow colIndex) (getCell t colIndex)))
    targetRow

/-! ## The merge orchestrator -/

/-- `MergeConfig` of `src/lib/excel-utils.ts`. -/
structure MergeConfig where
  includeTotal : Bool
  startRow : ℕ
  startColumn : String
  endColumn : String
  includeSignature : Bool
deriving DecidableEq, Repr

/-- Which branch of `mergeExcelFiles` committed an output row: the
first-sheet header copy, the plain data copy, the total-row copy, or the
signature append. -/
inductive RowKind where
  | header : RowKind
  | data : RowKind
  | total : RowKind
  | sig : RowKind
deriving DecidableEq, Repr

/-- Provenance of an output row: source file index, sheet index within
the file, source row number, and the branch that copied it. -/
structure Src where
  file : ℕ
  sheet : ℕ
  row : ℕ
  kind : RowKind
deriving DecidableEq, Repr

/-- An output row of the consolidated sheet: provenance plus the row
content produced by `copyRowWithFormatting` into a fresh target row. -/
abbrev OutRow := Src × Row

/-- Copy a source row into a fresh (empty) target row of the output
sheet over the column window. -/
def copyFresh (r : Row) (sc ec : ℕ) : Row := copyRowWithFormatting r [] sc ec

/-- The data-row loop of `mergeExcelFiles` (`for (let rowNum = startRowNum;
rowNum <= lastRow; rowNum++)`), walked over the list of row numbers:
total rows are copied iff `includeTotal` and `continue`; reaching the
signature region captures rows `signatureRowNum .. lastRow` once (iff
`includeSignature` and the signature buffer is still empty) and `break`s;
subtotal rows are skipped when `includeTotal` is false; everything else
is copied as data.  Returns the committed rows and the captured
signature rows (stored raw, copied only when appended at the end). -/
def walkRows (config : MergeConfig) (sc ec : ℕ) (sheet : Sheet)
    (totalRowNum signatureRowNum : Option ℕ) (lastRow : ℕ)
    (f s : ℕ) (sigBufEmpty : Bool) : List ℕ → List OutRow × List (Src × Row)
  | [] => ([], [])
  | rowNum :: rest =>
    let sourceRow := getRow sheet rowNum
    if totalRowNum.isSome ∧ rowNum = totalRowNum.getD 0 then
      let r := walkRows config sc ec sheet totalRowNum signatureRowNum lastRow f s sigBufEmpty rest
      (if config.includeTotal then
          (⟨f, s, rowNum, .total⟩, copyFresh sourceRow sc ec) :: r.1
        else r.1,
       r.2)
    else if signatureRowNum.isSome ∧ signatureRowNum.getD 0 ≤ rowNum then
      ([],
       if config.includeSignature ∧ sigBufEmpty then
         (List.range' (signatureRowNum.getD 0) (lastRow + 1 - signatureRowNum.getD 0)).map
           (fun sigRowNum => (⟨f, s, sigRowNum, .sig⟩, getRow sheet sigRowNum))
       else [])
    else if config.includeTotal = false ∧ isSubtotalRow sourceRow sc ec then
      walkRows config sc ec sheet totalRowNum signatureRowNum lastRow f s sigBufEmpty rest
    else
      let r := walkRows config sc ec sheet totalRowNum signatureRowNum lastRow f s sigBufEmpty rest
      ((⟨f, s, rowNum, .data⟩, copyFresh sourceRow sc ec) :: r.1, r.2)

/-- The full scanned row range of a sheet: `[startRow, lastRow]`. -/
def scanRange (config : MergeConfig) (sheet : Sheet) : List ℕ :=
  List.range' config.startRow (lastRowNumber sheet + 1 - config.startRow)

/-- Process one source sheet of `mergeExcelFiles`: detect the total and
signature rows, copy the above-table header rows `1 .. startRow-1` when
this is the very first sheet, then walk the data rows
`[startRow, lastRow]`.  Returns the committed rows and the captured
signature rows. -/
def processSheet (config : MergeConfig) (sc ec f s : ℕ) (isFirstSheet sigBufEmpty : Bool)
    (sheet : Sheet) : List OutRow × List (Src × Row) :=
  let totalRowNum := findTotalRow sheet
  let signatureRowNum := findSignatureRow sheet
  let headerRows : List OutRow :=
    if isFirstSheet then
      (List.range' 1 (config.startRow - 1)).map
        (fun rowNum => (⟨f, s, rowNum, .header⟩, copyFresh (getRow sheet rowNum) sc ec))
    else []
  let walked := walkRows config sc ec sheet totalRowNum signatureRowNum
      (lastRowNumber sheet) f s sigBufEmpty (scanRange config sheet)
  (headerRows ++ walked.1, walked.2)

/-- The mutable state of the merge loop: the committed output rows, the
`isFirstSheet` flag, and `signatureRowsToAdd`. -/
structure MergeSt where
  out : List OutRow
  isFirstSheet : Bool
  sigBuf : List (Src × Row)
deriving DecidableEq, Repr

/-- Process the sheets of one workbook in order (`worksheets.forEach`),
threading the merge state; `s` is the index of the first sheet. -/
def processSheets (config : MergeConfig) (sc ec f : ℕ) : ℕ → List (String × Sheet) → MergeSt → MergeSt
  | _, [], st => st
  | s, (_, sheet) :: rest, st =>
    let r := processSheet config sc ec f s st.isFirstSheet st.sigBuf.isEmpty sheet
    processSheets config sc ec f (s + 1) rest
      { out := st.out ++ r.1, isFirstSheet := false, sigBuf := st.sigBuf ++ r.2 }

/-- Process the input files in order (`for (const file of files)`);
`f` is the index of the first file. -/
def processFiles (config : MergeConfig) (sc ec : ℕ) : ℕ → List Workbook → MergeSt → MergeSt
  | _, [], st => st
  | f, wb :: rest, st =>
    processFiles config sc ec (f + 1) rest (processSheets config sc ec f 0 wb st)

/-- The merge state after all files and sheets are processed. -/
def mergeState (config : MergeConfig) (sc ec : ℕ) (files : List Workbook) : MergeSt :=
  processFiles config sc ec 0 files { out := [], isFirstSheet := true, sigBuf := [] }

/-- `mergeExcelFiles(files, config)` of `src/lib/excel-utils.ts`, as the
ordered content of the produced "Consolidated" sheet: all committed rows
in commit order, then the captured signature section (if any) copied once
at the very end. -/
def mergeExcelFiles (files : List Workbook) (config : MergeConfig) : List OutRow :=
  let sc := columnLetterToNumber config.startColumn
  let ec := columnLetterToNumber config.endColumn
  let st := mergeState config sc ec files
  st.out ++ st.sigBuf.map (fun e => (e.1, copyFresh e.2 sc ec))

/-! ## Specification-side definitions

These follow the wording of the specification sentences being checked;
the theorems below relate them to the definitions translated from the
source. -/

/-- "a row … contains a cell whose trimmed, case-insensitive text equals
exactly TOTAL". -/
def rowContainsTotalText (r : Row) : Prop :=
  ∃ c ∈ r, jsToUpper (jsTrim (jsToString c.value)) = "TOTAL"

/-- "a row … contains, in some cell's trimmed lowercase text, one of the
signature keywords". -/
def rowContainsSignatureText (r : Row) : Prop :=
  ∃ c ∈ r, jsToString c.value ≠ "" ∧ jsToLower (jsTrim (jsToString c.value)) ≠ "" ∧
    ∃ kw ∈ signatureKeywords, jsIncludes (jsToLower (jsTrim (jsToString c.value))) kw = true

/-- The three cell classes of the subtotal heuristic. -/
inductive CellClass where
  | empty : CellClass
  | numeric : CellClass
  | textual : CellClass
deriving DecidableEq, Repr

/-- "each window cell is classified as empty, numeric (a number, or text
that parses as a number after stripping comma thousands-separators), or
textual". -/
def classifyStr (s : String) : CellClass :=
  if s = "" then .empty
  else if strLooksNumeric s then .numeric
  else .textual

def classifyCell (v : CellValue) : CellClass :=
  match v with
  | .vNull => .empty
  | .vStr s => if s = "" then .empty else classifyStr (jsTrim s)
  | .vNum _ => .numeric
  | v => classifyStr (jsTrim (jsToString v))

/-- The values of the cells in the column window `[sc, ec]` of a row. -/
def windowCells (r : Row) (sc ec : ℕ) : List CellValue :=
  (List.range' sc (ec + 1 - sc)).map (fun c => (getCell r c).value)

/-- A structured (object-typed) cell value that has none of the
`formula` / `richText` / `text` / `result` shapes the extractor looks at:
a `Date`, an error object, or a text-less hyperlink. -/
def isPlainStructured (v : CellValue) : Bool :=
  match v with
  | .vDate _ => true
  | .vError _ => true
  | .vHyperlink none _ => true
  | _ => false

/-- The rows a capturing sheet contributes to the signature buffer:
rows `k .. lastRow` of the sheet, in order, tagged with its provenance. -/
def captureList (f s : ℕ) (sheet : Sheet) (k lastRow : ℕ) : List (Src × Row) :=
  (List.range' k (lastRow + 1 - k)).map (fun rn => (⟨f, s, rn, .sig⟩, getRow sheet rn))

/-- The signature rows a single sheet would capture if the buffer were
still empty when its data rows are walked. -/
def sheetCapture (config : MergeConfig) (sc ec f s : ℕ) (sheet : Sheet) : List (Src × Row) :=
  (walkRows config sc ec sheet (findTotalRow sheet) (findSignatureRow sheet)
    (lastRowNumber sheet) f s true (scanRange config sheet)).2

/-- The first (in sheet order) nonempty capture among the sheets of one
workbook, starting at sheet index `s`. -/
def firstCaptureSheets (config : MergeConfig) (sc ec f : ℕ) : ℕ → List (String × Sheet) → List (Src × Row)
  | _, [] => []
  | s, (_, sheet) :: rest =>
    let c := sheetCapture config sc ec f s sheet
    if c.isEmpty then firstCaptureSheets config sc ec f (s + 1) rest else c

/-- The first (in file-then-sheet processing order) nonempty capture among
all sheets of all files, starting at file index `f`. -/
def firstCapture (config : MergeConfig) (sc ec : ℕ) : ℕ → List Workbook → List (Src × Row)
  | _, [] => []
  | f, wb :: rest =>
    let c := firstCaptureSheets config sc ec f 0 wb
    if c.isEmpty then firstCapture config sc ec (f + 1) rest else c

/-- Rename every sheet of every input workbook. -/
def renameSheets (g : String → String) (files : List Workbook) : List Workbook :=
  files.map (fun wb => wb.map (fun p => (g p.1, p.2)))

/-! ## Concrete inputs for counterexamples and witnesses -/

def strCell (s : String) : Cell := { value := .vStr s }

def numCell (q : ℚ) : Cell := { value := .vNum q }

/-- `startRow = 2`, window A–B, totals kept, signature off. -/
def cfgAB : MergeConfig :=
  { includeTotal := true, startRow := 2, startColumn := "A", endColumn := "B",
    includeSignature := false }

/-- Like `cfgAB` but with the signature feature on. -/
def cfgSig : MergeConfig :=
  { includeTotal := true, startRow := 2, startColumn := "A", endColumn := "B",
    includeSignature := true }

/-- First input file: title row, table-header row, one data row. -/
def wbFirst : Workbook :=
  [("Sheet1", [[strCell "Report"], [strCell "Name", strCell "Qty"], [strCell "a", numCell 1]])]

/-- Second input file: same shape, with its own repeated table-header row
at row 2 (= `startRow`). -/
def wbSecond : Workbook :=
  [("Sheet1", [[strCell "Report"], [strCell "Name", strCell "Qty"], [strCell "b", numCell 2]])]

/-- One input file whose second sheet is named "Consolidated" and holds a
data row. -/
def wbWithConsolidated : Workbook :=
  [("Data", [[strCell "Name"], [strCell "a"]]),
   ("Consolidated", [[strCell "Name"], [strCell "z"]])]

/-- A file whose only sheet consists of a single signature-keyword row
(so its data-row walk `[2, 1]` is empty). -/
def wbSigOnly : Workbook :=
  [("S1", [[strCell "Signature of sender"]])]

/-- A file with a data row and a trailing signature block at rows 3–4. -/
def wbSigBlock : Workbook :=
  [("S2", [[strCell "Title"], [strCell "b", numCell 2], [strCell "Người nhận"],
           [strCell "(signed)"]])]

/-- A sheet whose signature keyword sits above the data window (row 1)
and whose total row coincides with `startRow = 2`. -/
def sheetSigAbove : Sheet :=
  [[strCell "Ghi chú: signature"], [strCell "TOTAL", numCell 5], [strCell "x", numCell 1]]

def wbSigAbove : Workbook := [("S", sheetSigAbove)]

/-- A one-row sheet with "TOTAL" in column 1 (outside a window B–D). -/
def sheetTotalCol1 : Sheet := [[strCell "TOTAL", strCell "x", strCell "y", strCell "z"]]

/-- The same sheet with column 1 blanked; columns 2–4 are identical. -/
def sheetTotalCol1Blanked : Sheet := [[emptyCell, strCell "x", strCell "y", strCell "z"]]

/-! # Theorems -/

/-! ## C9 — cell value extraction -/

/-- C9, counterexample: a `Date` object is a structured cell value with
none of the formula / rich-text / text / result shapes, yet
`extractSafeCellValue` returns null for it — not a (shallow copy of) the
value, as the claim states. -/
theorem C9_counterexample_date_extracts_to_null :
    extractSafeCellValue (.vDate 45000) = none ∧
      extractSafeCellValue (.vDate 45000) ≠ some (.vDate 45000) := by
  exact ⟨rfl, by decide⟩

/-- C9 (amended): `extractSafeCellValue` is total (it is a Lean function,
so it never fails); an empty cell yields null; and a structured value
with none of the formula / rich-text / text-bearing / result-bearing
shapes (a `Date`, an error object, or a text-less hyperlink) degrades to
null rather than being shallow-copied. -/
theorem C9_extract_plain_structured_is_null (v : CellValue) :
    (v = .vNull → extractSafeCellValue v = none) ∧
      (isPlainStructured v = true → extractSafeCellValue v = none) := by
  constructor
  · rintro rfl; rfl
  · intro h
    cases v with
    | vDate d => rfl
    | vError e => rfl
    | vHyperlink t tgt =>
      cases t with
      | none => rfl
      | some s => exact absurd h (by simp [isPlainStructured])
    | vNull => rfl
    | vStr s => exact absurd h (by simp [isPlainStructured])
    | vNum q => exact absurd h (by simp [isPlainStructured])
    | vBool b => exact absurd h (by simp [isPlainStructured])
    | vFormula f r => exact absurd h (by simp [isPlainStructured])
    | vSharedFormula f r => exact absurd h (by simp [isPlainStructured])
    | vRich runs => exact absurd h (by simp [isPlainStructured])

/-- C9, witness: the amended theorem applied to a concrete `Date` cell. -/
theorem C9_witness : extractSafeCellValue (.vDate 45000) = none :=
  (C9_extract_plain_structured_is_null (.vDate 45000)).2 rfl

/-! ## C7 — column codec -/

theorem charOfNat_toNat_of_letter (m : ℕ) :
    (Char.ofNat (65 + m % 26)).toNat = 65 + m % 26 := by
  have h : m % 26 < 26 := Nat.mod_lt _ (by norm_num)
  simp only [Char.ofNat]
  split
  · rfl
  · next hbad => exact absurd (Or.inl (by omega)) hbad

theorem columnLetter_roundtrip_aux (n : ℕ) : ∀ (fuel : ℕ) (acc : ℕ), n ≤ fuel →
    (columnNumberToLetterAux fuel n).foldl (fun result ch => result * 26 + ch.toNat - 64) acc
      = acc * 26 ^ (columnNumberToLetterAux fuel n).length + n := by
  induction n using Nat.strong_induction_on with
  | _ n ih =>
    intro fuel acc hle
    match n, fuel with
    | 0, 0 => simp [columnNumberToLetterAux]
    | 0, fuel + 1 => simp [columnNumberToLetterAux]
    | n + 1, fuel + 1 =>
      rw [show columnNumberToLetterAux (fuel + 1) (n + 1)
            = columnNumberToLetterAux fuel (n / 26) ++ [Char.ofNat (65 + n % 26)] from rfl]
      rw [List.foldl_append, List.length_append]
      have hdiv : n / 26 < n + 1 := Nat.lt_succ_of_le (Nat.div_le_self n 26)
      have hfuel : n / 26 ≤ fuel := le_trans (Nat.div_le_self n 26) (Nat.succ_le_succ_iff.mp hle)
      rw [ih (n / 26) hdiv fuel acc hfuel]
      simp only [List.foldl_cons, List.foldl_nil, List.length_cons, List.length_nil]
      rw [charOfNat_toNat_of_letter, pow_succ, ← mul_assoc]
      generalize acc * 26 ^ (columnNumberToLetterAux fuel (n / 26)).length = A
      omega

/-- C7: the column codec round-trips — for every `n ≥ 1`,
`columnLetterToNumber (columnNumberToLetter n) = n` — and
`columnLetterToNumber` maps "A" to 1, "Z" to 26 and "AA" to 27. -/
theorem C7_column_codec_roundtrip :
    (∀ n : ℕ, 1 ≤ n → columnLetterToNumber (columnNumberToLetter n) = n)
    ∧ columnLetterToNumber "A" = 1
    ∧ columnLetterToNumber "Z" = 26
    ∧ columnLetterToNumber "AA" = 27 := by
  refine ⟨fun n _ => ?_, by decide, by decide, by decide⟩
  show (columnNumberToLetterAux n n).foldl _ 0 = n
  rw [columnLetter_roundtrip_aux n n 0 le_rfl]
  simp

/-- C7, witness: the round-trip at `n = 702` (column "ZZ"). -/
theorem C7_witness : columnLetterToNumber (columnNumberToLetter 702) = 702 :=
  C7_column_codec_roundtrip.1 702 (by norm_num)

/-! ## C3 — which classifiers respect the column window -/

/-- C3, counterexample: two one-row sheets that agree on every cell of
the window B–D (columns 2–4) but differ in column 1 (outside the
window); `findTotalRow` — one of the three classification predicates —
returns different results, so a cell outside the window does affect
classification. -/
theorem C3_counterexample_total_scans_outside_window :
    (((getRow sheetTotalCol1 1).drop 1).take 3 = ((getRow sheetTotalCol1Blanked 1).drop 1).take 3)
    ∧ sheetTotalCol1.length = 1 ∧ sheetTotalCol1Blanked.length = 1
    ∧ findTotalRow sheetTotalCol1 = some 1
    ∧ findTotalRow sheetTotalCol1Blanked = none := by decide

/-- C3 (amended): only the subtotal predicate is restricted to the
configured column window — `isSubtotalRow` depends on nothing outside
`[startCol, endCol]` — while total-row and signature-row detection scan
every cell of every row. -/
theorem C3_isSubtotalRow_window_local (r r' : Row) (sc ec : ℕ)
    (h : ∀ c, sc ≤ c → c ≤ ec → getCell r c = getCell r' c) :
    isSubtotalRow r sc ec = isSubtotalRow r' sc ec := by
  have hfold :
      (List.range' sc (ec + 1 - sc)).foldl (fun acc c => subtotalStep acc (getCell r c).value) (0, 0, 0)
        = (List.range' sc (ec + 1 - sc)).foldl (fun acc c => subtotalStep acc (getCell r' c).value) (0, 0, 0) := by
    apply List.foldl_ext
    intro acc x hx
    rw [List.mem_range'_1] at hx
    rw [h x hx.1 (by omega)]
  simp only [isSubtotalRow, hfold]

/-- C3, witness: the amended theorem applied to two concrete rows that
agree on the (single-column) window `[2, 2]`. -/
theorem C3_witness :
    isSubtotalRow [strCell "X", numCell 1] 2 2 = isSubtotalRow [strCell "Y", numCell 1] 2 2 :=
  C3_isSubtotalRow_window_local [strCell "X", numCell 1] [strCell "Y", numCell 1] 2 2
    (fun c h1 h2 => by
      have hc : c = 2 := le_antisymm h2 h1
      subst hc; rfl)

/-! ## C5 — `findTotalRow` returns the least matching row -/

theorem eachRowFindFrom_spec (p : Row → Bool) (s : List Row) : ∀ i : ℕ,
    (∀ n, eachRowFindFrom p i s = some n →
        i ≤ n ∧ (rowHasValues (s.getD (n - i) []) = true ∧ p (s.getD (n - i) []) = true) ∧
          ∀ m, i ≤ m → m < n →
            ¬(rowHasValues (s.getD (m - i) []) = true ∧ p (s.getD (m - i) []) = true))
    ∧ (eachRowFindFrom p i s = none →
        ∀ m, i ≤ m →
          ¬(rowHasValues (s.getD (m - i) []) = true ∧ p (s.getD (m - i) []) = true)) := by
  induction s with
  | nil =>
    intro i
    refine ⟨fun n hn => by simp [eachRowFindFrom] at hn, fun _ m _ => ?_⟩
    rintro ⟨hv, -⟩
    simp [rowHasValues] at hv
  | cons r rest ih =>
    intro i
    by_cases hq : rowHasValues r = true ∧ p r = true
    · constructor
      · intro n hn
        simp only [eachRowFindFrom, if_pos hq, Option.some.injEq] at hn
        subst hn
        refine ⟨le_rfl, by simpa using hq, fun m hm1 hm2 => absurd (lt_of_le_of_lt hm1 hm2) (lt_irrefl _)⟩
      · intro hn
        simp [eachRowFindFrom, if_pos hq] at hn
    · constructor
      · intro n hn
        simp only [eachRowFindFrom, if_neg hq] at hn
        obtain ⟨h1, ⟨hv, hp⟩, hmin⟩ := (ih (i + 1)).1 n hn
        have hni : n - i = (n - (i + 1)) + 1 := by omega
        refine ⟨by omega, by rw [hni]; exact ⟨hv, hp⟩, ?_⟩
        intro m hm1 hm2
        rcases eq_or_lt_of_le hm1 with rfl | hmi
        · simpa using hq
        · have hmi' : m - i = (m - (i + 1)) + 1 := by omega
          rw [hmi']
          exact hmin m (by omega) hm2
      · intro hn m hm1
        simp only [eachRowFindFrom, if_neg hq] at hn
        rcases eq_or_lt_of_le hm1 with rfl | hmi
        · simpa using hq
        · have hmi' : m - i = (m - (i + 1)) + 1 := by omega
          rw [hmi']
          exact (ih (i + 1)).2 hn m (by omega)

theorem cellIsTotal_iff (c : Cell) :
    cellIsTotal c = true ↔ jsToUpper (jsTrim (jsToString c.value)) = "TOTAL" := by
  cases hv : c.value <;> simp [cellIsTotal, hv] <;> decide

theorem rowContainsTotalText_iff (r : Row) :
    (rowHasValues r = true ∧ r.any cellIsTotal = true) ↔ rowContainsTotalText r := by
  constructor
  · rintro ⟨-, hany⟩
    obtain ⟨c, hc, hct⟩ := List.any_eq_true.mp hany
    exact ⟨c, hc, (cellIsTotal_iff c).mp hct⟩
  · rintro ⟨c, hc, htext⟩
    have hnn : c.value ≠ .vNull := by
      intro hnull
      rw [hnull] at htext
      exact absurd htext (by decide)
    refine ⟨List.any_eq_true.mpr ⟨c, hc, by simpa using hnn⟩,
      List.any_eq_true.mpr ⟨c, hc, (cellIsTotal_iff c).mpr htext⟩⟩

/-- C5: `findTotalRow` returns the smallest row number containing a cell
whose trimmed, upper-cased text is exactly "TOTAL", and none when no row
matches. -/
theorem C5_findTotalRow_least (s : Sheet) :
    (∀ n, findTotalRow s = some n →
        rowContainsTotalText (getRow s n)
          ∧ ∀ m, 1 ≤ m → m < n → ¬rowContainsTotalText (getRow s m))
    ∧ (findTotalRow s = none → ∀ m, ¬rowContainsTotalText (getRow s m)) := by
  have H := eachRowFindFrom_spec (fun r => r.any cellIsTotal) s 1
  constructor
  · intro n hn
    obtain ⟨h1, hmatch, hmin⟩ := H.1 n hn
    refine ⟨(rowContainsTotalText_iff _).mp hmatch, ?_⟩
    intro m hm1 hm2 hcontra
    exact hmin m hm1 hm2 ((rowContainsTotalText_iff _).mpr hcontra)
  · intro hn m hcontra
    rcases Nat.eq_zero_or_pos m with rfl | hm
    · exact H.2 hn 1 le_rfl ((rowContainsTotalText_iff _).mpr hcontra)
    · exact H.2 hn m hm ((rowContainsTotalText_iff _).mpr hcontra)

/-- C5, witness: on a concrete sheet whose second row is " total ", the
theorem yields that row 1 does not match (so 2 is the least match). -/
theorem C5_witness :
    ¬rowContainsTotalText (getRow [[strCell "x"], [strCell " total "]] 1) :=
  ((C5_findTotalRow_least [[strCell "x"], [strCell " total "]]).1 2 (by decide)).2
    1 le_rfl (lt_of_le_of_lt le_rfl Nat.one_lt_two)

/-! ## C6 — the subtotal heuristic -/

theorem subtotalStrStep_classifyStr (acc : ℕ × ℕ × ℕ) (str : String) :
    subtotalStrStep acc str =
      match classifyStr str with
      | .empty => (acc.1 + 1, acc.2.1, acc.2.2)
      | .numeric => (acc.1, acc.2.1 + 1, acc.2.2)
      | .textual => (acc.1, acc.2.1, acc.2.2 + 1) := by
  obtain ⟨e, n, t⟩ := acc
  simp only [subtotalStrStep, classifyStr]
  split_ifs <;> rfl

theorem subtotalStep_classify (acc : ℕ × ℕ × ℕ) (v : CellValue) :
    subtotalStep acc v =
      match classifyCell v with
      | .empty => (acc.1 + 1, acc.2.1, acc.2.2)
      | .numeric => (acc.1, acc.2.1 + 1, acc.2.2)
      | .textual => (acc.1, acc.2.1, acc.2.2 + 1) := by
  cases v with
  | vNull => obtain ⟨e, n, t⟩ := acc; rfl
  | vNum q => obtain ⟨e, n, t⟩ := acc; rfl
  | vStr s =>
    by_cases hs : s = ""
    · subst hs; obtain ⟨e, n, t⟩ := acc; rfl
    · show (if s = "" then _ else subtotalStrStep acc (jsTrim s)) = _
      rw [if_neg hs]
      have : classifyCell (.vStr s) = classifyStr (jsTrim s) := by
        show (if s = "" then CellClass.empty else classifyStr (jsTrim s)) = _
        rw [if_neg hs]
      rw [this]
      exact subtotalStrStep_classifyStr acc (jsTrim s)
  | vBool b => exact subtotalStrStep_classifyStr acc (jsTrim (jsToString (.vBool b)))
  | vDate d => exact subtotalStrStep_classifyStr acc (jsTrim (jsToString (.vDate d)))
  | vFormula f res => exact subtotalStrStep_classifyStr acc (jsTrim (jsToString (.vFormula f res)))
  | vSharedFormula f res =>
    exact subtotalStrStep_classifyStr acc (jsTrim (jsToString (.vSharedFormula f res)))
  | vRich runs => exact subtotalStrStep_classifyStr acc (jsTrim (jsToString (.vRich runs)))
  | vHyperlink t tgt =>
    exact subtotalStrStep_classifyStr acc (jsTrim (jsToString (.vHyperlink t tgt)))
  | vError e => exact subtotalStrStep_classifyStr acc (jsTrim (jsToString (.vError e)))

theorem subtotal_counts (r : Row) (l : List ℕ) : ∀ acc : ℕ × ℕ × ℕ,
    l.foldl (fun acc c => subtotalStep acc (getCell r c).value) acc
      = (acc.1 + (l.map (fun c => classifyCell (getCell r c).value)).count .empty,
         acc.2.1 + (l.map (fun c => classifyCell (getCell r c).value)).count .numeric,
         acc.2.2 + (l.map (fun c => classifyCell (getCell r c).value)).count .textual) := by
  induction l with
  | nil => intro acc; simp
  | cons x xs ih =>
    intro acc
    rw [List.foldl_cons, ih, subtotalStep_classify]
    simp only [List.map_cons, List.count_cons]
    rcases hcl : classifyCell (getCell r x).value <;>
      simp [hcl, Prod.ext_iff] <;>
      omega

/-- C6: `isSubtotalRow` holds iff at least 70% of the window cells are
empty, between 1 and 3 are numeric, and none is textual — with each
window cell classified as empty / numeric / textual exactly as the
claim describes. -/
theorem C6_isSubtotalRow_iff (r : Row) (sc ec : ℕ) :
    isSubtotalRow r sc ec = true ↔
      ((((windowCells r sc ec).map classifyCell).count .empty : ℚ) / ((ec + 1 - sc : ℕ) : ℚ) ≥ 7 / 10
        ∧ 1 ≤ ((windowCells r sc ec).map classifyCell).count .numeric
        ∧ ((windowCells r sc ec).map classifyCell).count .numeric ≤ 3
        ∧ ((windowCells r sc ec).map classifyCell).count .textual = 0) := by
  unfold isSubtotalRow windowCells
  rw [subtotal_counts]
  simp only [List.map_map, Function.comp, Nat.zero_add, Bool.and_eq_true, decide_eq_true_eq]
  tauto

/-! ## C8 — `copyRowWithFormatting` writes only the window -/

theorem getD_padTo (r : Row) (nn i : ℕ) :
    (padTo r nn).getD i emptyCell = r.getD i emptyCell := by
  unfold padTo
  rcases lt_or_ge i r.length with h | h
  · rw [List.getD_append _ _ _ _ h]
  · rw [List.getD_append_right _ _ _ _ h]
    rw [List.getD_eq_getElem?_getD, List.getElem?_replicate]
    rw [List.getD_eq_getElem?_getD r, List.getElem?_eq_none (by omega)]
    split_ifs <;> rfl

theorem padTo_length_ge (r : Row) (nn : ℕ) : nn ≤ (padTo r nn).length := by
  unfold padTo
  rw [List.length_append, List.length_replicate]
  omega

theorem getCell_setCell_self (r : Row) (c : ℕ) (x : Cell) (hc : 1 ≤ c) :
    getCell (setCell r c x) c = x := by
  unfold getCell setCell
  rw [List.getD_eq_getElem?_getD,
    List.getElem?_set_self (lt_of_lt_of_le (by omega) (padTo_length_ge r c))]
  rfl

theorem getCell_setCell_ne (r : Row) (c c' : ℕ) (x : Cell) (hc : 1 ≤ c) (hc' : 1 ≤ c')
    (hne : c ≠ c') : getCell (setCell r c x) c' = getCell r c' := by
  unfold getCell setCell
  rw [List.getD_eq_getElem?_getD, List.getElem?_set_ne (by omega),
    ← List.getD_eq_getElem?_getD]
  exact getD_padTo r c (c' - 1)

theorem copy_fold_frame (source : Row) (l : List ℕ) (c : ℕ)
    (hpos : ∀ x ∈ l, 1 ≤ x) (hc : 1 ≤ c) (hni : c ∉ l) : ∀ t : Row,
    getCell (l.foldl
      (fun t colIndex => setCell t colIndex (copyCellInto (getCell source colIndex) (getCell t colIndex)))
      t) c = getCell t c := by
  induction l with
  | nil => intro t; rfl
  | cons x xs ih =>
    intro t
    rw [List.foldl_cons,
      ih (fun y hy => hpos y (List.mem_cons_of_mem x hy)) (fun hmem => hni (List.mem_cons_of_mem x hmem)),
      getCell_setCell_ne _ _ _ _ (hpos x (List.mem_cons_self x xs)) hc
        (fun hxc => hni (hxc ▸ List.mem_cons_self x xs))]

theorem copy_fold_window (source : Row) (l : List ℕ) (c : ℕ)
    (hpos : ∀ x ∈ l, 1 ≤ x) (hnd : l.Nodup) (hcl : c ∈ l) : ∀ t : Row,
    getCell (l.foldl
      (fun t colIndex => setCell t colIndex (copyCellInto (getCell source colIndex) (getCell t colIndex)))
      t) c = copyCellInto (getCell source c) (getCell t c) := by
  induction l with
  | nil => exact absurd hcl (List.not_mem_nil c)
  | cons x xs ih =>
    intro t
    have hx : x ∉ xs := (List.nodup_cons.mp hnd).1
    have hxs : xs.Nodup := (List.nodup_cons.mp hnd).2
    rcases List.mem_cons.mp hcl with rfl | hcxs
    · rw [List.foldl_cons,
        copy_fold_frame source xs c (fun y hy => hpos y (List.mem_cons_of_mem c hy))
          (hpos c (List.mem_cons_self c xs)) hx,
        getCell_setCell_self _ _ _ (hpos c (List.mem_cons_self c xs))]
    · have hcx : x ≠ c := fun h => hx (h ▸ hcxs)
      rw [List.foldl_cons, ih (fun y hy => hpos y (List.mem_cons_of_mem x hy)) hxs hcxs,
        getCell_setCell_ne _ _ _ _ (hpos x (List.mem_cons_self x xs))
          (hpos c hcl) hcx]

theorem copyCellInto_value (a b : Cell) :
    (copyCellInto a b).value =
      match extractSafeCellValue a.value with
      | some v => v
      | none => b.value := by
  simp only [copyCellInto]
  cases hev : extractSafeCellValue a.value <;> simp only [hev] <;> split_ifs <;> rfl

/-- C8: `copyRowWithFormatting` leaves every target cell outside the
column window `[startCol, endCol]` unchanged, and inside the window it
assigns each non-null extracted source value to the target cell at the
same column index (a null extraction leaves the target value as it was). -/
theorem C8_copyRow_frame_and_window (source target : Row) (sc ec c : ℕ) (hsc : 1 ≤ sc) :
    (1 ≤ c → (c < sc ∨ ec < c) →
        getCell (copyRowWithFormatting source target sc ec) c = getCell target c)
    ∧ (sc ≤ c → c ≤ ec →
        (getCell (copyRowWithFormatting source target sc ec) c).value
          = match extractSafeCellValue (getCell source c).value with
            | some v => v
            | none => (getCell target c).value) := by
  have hpos : ∀ x ∈ List.range' sc (ec + 1 - sc), 1 ≤ x := by
    intro x hx
    rw [List.mem_range'_1] at hx
    omega
  constructor
  · intro hc hout
    unfold copyRowWithFormatting
    refine copy_fold_frame source _ c hpos hc ?_ target
    intro hmem
    rw [List.mem_range'_1] at hmem
    omega
  · intro h1 h2
    unfold copyRowWithFormatting
    rw [copy_fold_window source _ c hpos (List.nodup_range' sc (ec + 1 - sc))
      (List.mem_range'_1.mpr ⟨h1, by omega⟩) target]
    exact copyCellInto_value _ _

/-- C8, witness: the frame part at a concrete row — column 1 lies outside
the window `[2, 2]` and is untouched. -/
theorem C8_witness :
    getCell (copyRowWithFormatting [strCell "v"] [strCell "w", strCell "u"] 2 2) 1
      = getCell [strCell "w", strCell "u"] 1 :=
  (C8_copyRow_frame_and_window [strCell "v"] [strCell "w", strCell "u"] 2 2 1 (by norm_num)).1
    le_rfl (Or.inl (by norm_num))

/-! ## Merge-walk lemmas (C1, C2, C4, C10) -/

section WalkLemmas

variable (config : MergeConfig) (sc ec : ℕ) (sheet : Sheet)
variable (tr sr : Option ℕ) (lastRow f s : ℕ)

theorem walkRows_fst_flag (rows : List ℕ) (b1 b2 : Bool) :
    (walkRows config sc ec sheet tr sr lastRow f s b1 rows).1
      = (walkRows config sc ec sheet tr sr lastRow f s b2 rows).1 := by
  induction rows with
  | nil => rfl
  | cons rowNum rest ih =>
    simp only [walkRows]
    by_cases h1 : tr.isSome = true ∧ rowNum = tr.getD 0
    · simp only [if_pos h1]
      show (if config.includeTotal = true then _ :: _ else _) = (if config.includeTotal = true then _ :: _ else _)
      by_cases h2 : config.includeTotal = true
      · rw [if_pos h2, if_pos h2, ih]
      · rw [if_neg h2, if_neg h2, ih]
    · simp only [if_neg h1]
      by_cases h2 : sr.isSome = true ∧ sr.getD 0 ≤ rowNum
      · simp only [if_pos h2]
      · simp only [if_neg h2]
        by_cases h3 : config.includeTotal = false ∧ isSubtotalRow (getRow sheet rowNum) sc ec = true
        · simp only [if_pos h3]
          exact ih
        · simp only [if_neg h3]
          show _ :: _ = _ :: _
          rw [ih]

theorem walkRows_snd_not_empty_flag (rows : List ℕ) :
    (walkRows config sc ec sheet tr sr lastRow f s false rows).2 = [] := by
  induction rows with
  | nil => rfl
  | cons rowNum rest ih =>
    simp only [walkRows]
    by_cases h1 : tr.isSome = true ∧ rowNum = tr.getD 0
    · simp only [if_pos h1]
      exact ih
    · simp only [if_neg h1]
      by_cases h2 : sr.isSome = true ∧ sr.getD 0 ≤ rowNum
      · simp only [if_pos h2]
        simp
      · simp only [if_neg h2]
        by_cases h3 : config.includeTotal = false ∧ isSubtotalRow (getRow sheet rowNum) sc ec = true
        · simp only [if_pos h3]
          exact ih
        · simp only [if_neg h3]
          exact ih

theorem walkRows_snd_structure (rows : List ℕ) (b : Bool) :
    (walkRows config sc ec sheet tr sr lastRow f s b rows).2 = []
    ∨ (config.includeSignature = true ∧ b = true
        ∧ ∃ k, sr = some k
            ∧ (walkRows config sc ec sheet tr sr lastRow f s b rows).2
                = captureList f s sheet k lastRow) := by
  induction rows with
  | nil => exact Or.inl rfl
  | cons rowNum rest ih =>
    simp only [walkRows]
    by_cases h1 : tr.isSome = true ∧ rowNum = tr.getD 0
    · simpa only [if_pos h1] using ih
    · simp only [if_neg h1]
      by_cases h2 : sr.isSome = true ∧ sr.getD 0 ≤ rowNum
      · simp only [if_pos h2]
        by_cases hcap : config.includeSignature = true ∧ b = true
        · right
          obtain ⟨k, hk⟩ := Option.isSome_iff_exists.mp h2.1
          refine ⟨hcap.1, hcap.2, k, hk, ?_⟩
          show (if config.includeSignature = true ∧ b = true then _ else []) = _
          rw [if_pos hcap]
          simp [captureList, hk]
        · left
          show (if config.includeSignature = true ∧ b = true then _ else []) = []
          rw [if_neg hcap]
      · simp only [if_neg h2]
        by_cases h3 : config.includeTotal = false ∧ isSubtotalRow (getRow sheet rowNum) sc ec = true
        · simpa only [if_pos h3] using ih
        · simpa only [if_neg h3] using ih

theorem walkRows_fst_mem (rows : List ℕ) (b : Bool) :
    ∀ e ∈ (walkRows config sc ec sheet tr sr lastRow f s b rows).1,
      e.1.file = f ∧ e.1.sheet = s ∧ (e.1.kind = .data ∨ e.1.kind = .total)
        ∧ e.1.row ∈ rows := by
  induction rows with
  | nil => intro e he; exact absurd he (List.not_mem_nil e)
  | cons rowNum rest ih =>
    intro e he
    simp only [walkRows] at he
    by_cases h1 : tr.isSome = true ∧ rowNum = tr.getD 0
    · rw [if_pos h1] at he
      by_cases h2 : config.includeTotal = true
      · rw [if_pos h2] at he
        rcases List.mem_cons.mp he with rfl | he'
        · exact ⟨rfl, rfl, Or.inr rfl, List.mem_cons_self _ _⟩
        · obtain ⟨h1', h2', h3', h4'⟩ := ih e he'
          exact ⟨h1', h2', h3', List.mem_cons_of_mem _ h4'⟩
      · rw [if_neg h2] at he
        obtain ⟨h1', h2', h3', h4'⟩ := ih e he
        exact ⟨h1', h2', h3', List.mem_cons_of_mem _ h4'⟩
    · rw [if_neg h1] at he
      by_cases h3 : sr.isSome = true ∧ sr.getD 0 ≤ rowNum
      · rw [if_pos h3] at he
        exact absurd he (List.not_mem_nil e)
      · rw [if_neg h3] at he
        by_cases h4 : config.includeTotal = false ∧ isSubtotalRow (getRow sheet rowNum) sc ec = true
        · rw [if_pos h4] at he
          obtain ⟨h1', h2', h3', h4'⟩ := ih e he
          exact ⟨h1', h2', h3', List.mem_cons_of_mem _ h4'⟩
        · rw [if_neg h4] at he
          rcases List.mem_cons.mp he with rfl | he'
          · exact ⟨rfl, rfl, Or.inl rfl, List.mem_cons_self _ _⟩
          · obtain ⟨h1', h2', h3', h4'⟩ := ih e he'
            exact ⟨h1', h2', h3', List.mem_cons_of_mem _ h4'⟩

/-- When the detected signature row `k` lies at or before the first
scanned row `a`, the row walk copies nothing — except the total row when
it coincides with `a` and totals are included. -/
theorem walkRows_sig_early (k : ℕ) (b : Bool) :
    ∀ (n a : ℕ), k ≤ a →
    (walkRows config sc ec sheet tr (some k) lastRow f s b (List.range' a n)).1
      = if tr = some a ∧ config.includeTotal = true ∧ 0 < n then
          [(⟨f, s, a, .total⟩, copyFresh (getRow sheet a) sc ec)]
        else [] := by
  intro n
  induction n with
  | zero =>
    intro a ha
    rw [if_neg (fun h => lt_irrefl 0 h.2.2)]
    rfl
  | succ m ihm =>
    intro a ha
    simp only [List.range']
    simp only [walkRows]
    by_cases h1 : tr.isSome = true ∧ a = tr.getD 0
    · have htr : tr = some a := by
        obtain ⟨t, ht⟩ := Option.isSome_iff_exists.mp h1.1
        have := h1.2
        rw [ht] at this ⊢
        simp only [Option.getD_some] at this
        rw [this]
      rw [if_pos h1]
      have hrest : (walkRows config sc ec sheet tr (some k) lastRow f s b (List.range' (a + 1) m)).1 = [] := by
        rw [ihm (a + 1) (by omega)]
        rw [if_neg]
        rintro ⟨hc, -⟩
        rw [htr] at hc
        have : a = a + 1 := by simpa using hc
        omega
      by_cases h2 : config.includeTotal = true
      · show (if config.includeTotal = true then _ :: _ else _) = _
        rw [if_pos h2, hrest, if_pos ⟨htr, h2, Nat.succ_pos m⟩]
      · show (if config.includeTotal = true then _ :: _ else _) = _
        rw [if_neg h2, hrest, if_neg (fun h => h2 h.2.1)]
    · rw [if_neg h1, if_pos ⟨rfl, show (some k).getD 0 ≤ a from ha⟩]
      refine (if_neg ?_).symm
      rintro ⟨hc, -⟩
      exact h1 ⟨by rw [hc]; rfl, by rw [hc]; rfl⟩

end WalkLemmas

/-! ## Fold lemmas over the merge state -/

section FoldLemmas

variable (config : MergeConfig) (sc ec : ℕ)

/-- `processSheet`'s captured rows are `walkRows`' captured rows. -/
theorem processSheet_snd (f s : ℕ) (b eb : Bool) (sheet : Sheet) :
    (processSheet config sc ec f s b eb sheet).2
      = (walkRows config sc ec sheet (findTotalRow sheet) (findSignatureRow sheet)
          (lastRowNumber sheet) f s eb (scanRange config sheet)).2 := rfl

theorem processSheet_fst_mem (f s : ℕ) (b eb : Bool) (sheet : Sheet) :
    ∀ e ∈ (processSheet config sc ec f s b eb sheet).1,
      e.1.file = f ∧ e.1.sheet = s ∧ e.1.kind ≠ .sig ∧
        (e.1.kind = .header
          ∨ e ∈ (walkRows config sc ec sheet (findTotalRow sheet) (findSignatureRow sheet)
              (lastRowNumber sheet) f s eb (scanRange config sheet)).1) := by
  intro e he
  simp only [processSheet] at he
  rcases List.mem_append.mp he with hh | hw
  · rcases hb : b with _ | _
    · rw [hb] at hh
      simp only [Bool.false_eq_true, if_neg] at hh
      exact absurd hh (List.not_mem_nil e)
    · rw [hb] at hh
      simp only [if_pos] at hh
      obtain ⟨rn, -, hrn⟩ := List.mem_map.mp hh
      rw [← hrn]
      exact ⟨rfl, rfl, by simp, Or.inl rfl⟩
  · obtain ⟨h1', h2', h3', -⟩ := walkRows_fst_mem config sc ec sheet _ _ _ f s _ eb e hw
    refine ⟨h1', h2', ?_, Or.inr hw⟩
    rcases h3' with h | h <;> simp [h]

theorem processSheets_out_prefix (f : ℕ) :
    ∀ (wbs : List (String × Sheet)) (s0 : ℕ) (st : MergeSt),
      ∃ l, (processSheets config sc ec f s0 wbs st).out = st.out ++ l := by
  intro wbs
  induction wbs with
  | nil => exact fun s0 st => ⟨[], by simp [processSheets]⟩
  | cons p rest ih =>
    intro s0 st
    obtain ⟨nm, sheet⟩ := p
    obtain ⟨l, hl⟩ := ih (s0 + 1)
      { out := st.out ++ (processSheet config sc ec f s0 st.isFirstSheet st.sigBuf.isEmpty sheet).1,
        isFirstSheet := false,
        sigBuf := st.sigBuf ++ (processSheet config sc ec f s0 st.isFirstSheet st.sigBuf.isEmpty sheet).2 }
    exact ⟨(processSheet config sc ec f s0 st.isFirstSheet st.sigBuf.isEmpty sheet).1 ++ l,
      by simp only [processSheets, hl, List.append_assoc]⟩

theorem processFiles_out_prefix :
    ∀ (files : List Workbook) (f0 : ℕ) (st : MergeSt),
      ∃ l, (processFiles config sc ec f0 files st).out = st.out ++ l := by
  intro files
  induction files with
  | nil => exact fun f0 st => ⟨[], by simp [processFiles]⟩
  | cons wb rest ih =>
    intro f0 st
    obtain ⟨l1, hl1⟩ := processSheets_out_prefix config sc ec f0 wb 0 st
    obtain ⟨l2, hl2⟩ := ih (f0 + 1) (processSheets config sc ec f0 0 wb st)
    exact ⟨l1 ++ l2, by simp only [processFiles, hl2, hl1, List.append_assoc]⟩

theorem processSheets_mem_intro (f : ℕ) :
    ∀ (wbs : List (String × Sheet)) (j s0 : ℕ) (st : MergeSt) (nm : String) (sheet : Sheet),
      wbs.get? j = some (nm, sheet) →
      ∀ e ∈ (walkRows config sc ec sheet (findTotalRow sheet) (findSignatureRow sheet)
          (lastRowNumber sheet) f (s0 + j) true (scanRange config sheet)).1,
        e ∈ (processSheets config sc ec f s0 wbs st).out := by
  intro wbs
  induction wbs with
  | nil => intro j s0 st nm sheet hj; simp at hj
  | cons p rest ih =>
    intro j s0 st nm sheet hj e he
    obtain ⟨nm0, sh0⟩ := p
    cases j with
    | zero =>
      simp only [List.get?] at hj
      injection hj with hj
      injection hj with hj1 hj2
      subst hj2
      simp only [processSheets]
      obtain ⟨l, hl⟩ := processSheets_out_prefix config sc ec f rest (s0 + 1)
        { out := st.out ++ (processSheet config sc ec f s0 st.isFirstSheet st.sigBuf.isEmpty sh0).1,
          isFirstSheet := false,
          sigBuf := st.sigBuf ++ (processSheet config sc ec f s0 st.isFirstSheet st.sigBuf.isEmpty sh0).2 }
      rw [hl]
      refine List.mem_append_left _ (List.mem_append_right _ ?_)
      have : e ∈ (walkRows config sc ec sh0 (findTotalRow sh0) (findSignatureRow sh0)
          (lastRowNumber sh0) f s0 st.sigBuf.isEmpty (scanRange config sh0)).1 := by
        rw [walkRows_fst_flag config sc ec sh0 _ _ _ f s0 _ st.sigBuf.isEmpty true]
        simpa using he
      exact List.mem_append_right _ this
    | succ j' =>
      simp only [List.get?] at hj
      simp only [processSheets]
      have hshift : s0 + (j' + 1) = (s0 + 1) + j' := by omega
      rw [hshift] at he
      exact ih j' (s0 + 1) _ nm sheet hj e he

theorem processFiles_mem_intro :
    ∀ (files : List Workbook) (i f0 : ℕ) (st : MergeSt) (wb : Workbook),
      files.get? i = some wb →
      ∀ (j : ℕ) (nm : String) (sheet : Sheet), wb.get? j = some (nm, sheet) →
      ∀ e ∈ (walkRows config sc ec sheet (findTotalRow sheet) (findSignatureRow sheet)
          (lastRowNumber sheet) (f0 + i) j true (scanRange config sheet)).1,
        e ∈ (processFiles config sc ec f0 files st).out := by
  intro files
  induction files with
  | nil => intro i f0 st wb hi; simp at hi
  | cons wb0 rest ih =>
    intro i f0 st wb hi j nm sheet hj e he
    cases i with
    | zero =>
      simp only [List.get?] at hi
      injection hi with hi
      subst hi
      simp only [processFiles]
      obtain ⟨l, hl⟩ := processFiles_out_prefix config sc ec rest (f0 + 1)
        (processSheets config sc ec f0 0 wb0 st)
      rw [hl]
      refine List.mem_append_left _ ?_
      have := processSheets_mem_intro config sc ec f0 wb0 j 0 st nm sheet hj e
      simp only [Nat.zero_add] at this
      exact this (by simpa using he)
    | succ i' =>
      simp only [List.get?] at hi
      simp only [processFiles]
      have hshift : f0 + (i' + 1) = (f0 + 1) + i' := by omega
      rw [hshift] at he
      exact ih i' (f0 + 1) _ wb hi j nm sheet hj e he

theorem processSheets_mem_elim (f : ℕ) :
    ∀ (wbs : List (String × Sheet)) (s0 : ℕ) (st : MergeSt),
      ∀ e ∈ (processSheets config sc ec f s0 wbs st).out,
        e ∈ st.out
        ∨ ∃ (j : ℕ) (nm : String) (sheet : Sheet), wbs.get? j = some (nm, sheet)
            ∧ ∃ b eb : Bool, e ∈ (processSheet config sc ec f (s0 + j) b eb sheet).1 := by
  intro wbs
  induction wbs with
  | nil => intro s0 st e he; exact Or.inl he
  | cons p rest ih =>
    intro s0 st e he
    obtain ⟨nm0, sh0⟩ := p
    simp only [processSheets] at he
    rcases ih (s0 + 1) _ e he with hin | ⟨j, nm, sheet, hj, b, eb, hmem⟩
    · simp only [MergeSt.out] at hin
      rcases List.mem_append.mp hin with h | h
      · exact Or.inl h
      · exact Or.inr ⟨0, nm0, sh0, rfl, st.isFirstSheet, st.sigBuf.isEmpty, by simpa using h⟩
    · refine Or.inr ⟨j + 1, nm, sheet, by simpa using hj, b, eb, ?_⟩
      have hshift : (s0 + 1) + j = s0 + (j + 1) := by omega
      rw [hshift] at hmem
      exact hmem

theorem processFiles_mem_elim :
    ∀ (files : List Workbook) (f0 : ℕ) (st : MergeSt),
      ∀ e ∈ (processFiles config sc ec f0 files st).out,
        e ∈ st.out
        ∨ ∃ (i : ℕ) (wb : Workbook), files.get? i = some wb
            ∧ ∃ (j : ℕ) (nm : String) (sheet : Sheet), wb.get? j = some (nm, sheet)
                ∧ ∃ b eb : Bool, e ∈ (processSheet config sc ec (f0 + i) j b eb sheet).1 := by
  intro files
  induction files with
  | nil => intro f0 st e he; exact Or.inl he
  | cons wb0 rest ih =>
    intro f0 st e he
    simp only [processFiles] at he
    rcases ih (f0 + 1) _ e he with hin | ⟨i, wb, hi, j, nm, sheet, hj, b, eb, hmem⟩
    · rcases processSheets_mem_elim config sc ec f0 wb0 0 st e hin with h | ⟨j, nm, sheet, hj, b, eb, hmem⟩
      · exact Or.inl h
      · exact Or.inr ⟨0, wb0, rfl, j, nm, sheet, hj, b, eb, by simpa using hmem⟩
    · refine Or.inr ⟨i + 1, wb, by simpa using hi, j, nm, sheet, hj, b, eb, ?_⟩
      have hshift : (f0 + 1) + i = f0 + (i + 1) := by omega
      rw [hshift] at hmem
      exact hmem

theorem processSheets_sigBuf_of_not_empty (f : ℕ) :
    ∀ (wbs : List (String × Sheet)) (s0 : ℕ) (st : MergeSt), st.sigBuf ≠ [] →
      (processSheets config sc ec f s0 wbs st).sigBuf = st.sigBuf := by
  intro wbs
  induction wbs with
  | nil => intro s0 st _; rfl
  | cons p rest ih =>
    intro s0 st hne
    obtain ⟨nm0, sh0⟩ := p
    simp only [processSheets]
    have hemp : st.sigBuf.isEmpty = false := by
      rcases hb : st.sigBuf with _ | _
      · exact absurd hb hne
      · rfl
    rw [hemp]
    have hsnd : (processSheet config sc ec f s0 st.isFirstSheet false sh0).2 = [] := by
      rw [processSheet_snd]
      exact walkRows_snd_not_empty_flag config sc ec sh0 _ _ _ f s0 _
    rw [ih (s0 + 1) _ (by simp [hsnd, hne])]
    simp [hsnd]

theorem processSheets_sigBuf_of_empty (f : ℕ) :
    ∀ (wbs : List (String × Sheet)) (s0 : ℕ) (st : MergeSt), st.sigBuf = [] →
      (processSheets config sc ec f s0 wbs st).sigBuf
        = firstCaptureSheets config sc ec f s0 wbs := by
  intro wbs
  induction wbs with
  | nil => intro s0 st h; exact h
  | cons p rest ih =>
    intro s0 st hemp
    obtain ⟨nm0, sh0⟩ := p
    simp only [processSheets, firstCaptureSheets]
    have hempb : st.sigBuf.isEmpty = true := by simp [hemp]
    rw [hempb]
    have hcap : (processSheet config sc ec f s0 st.isFirstSheet true sh0).2
        = sheetCapture config sc ec f s0 sh0 := by
      rw [processSheet_snd]; rfl
    rcases hc : sheetCapture config sc ec f s0 sh0 with _ | ⟨c0, cs⟩
    · rw [ih (s0 + 1) _ (by simp [hcap, hc, hemp])]
      simp [hc]
    · rw [processSheets_sigBuf_of_not_empty config sc ec f rest (s0 + 1) _
        (by simp [hcap, hc, hemp])]
      simp [hcap, hc, hemp]

theorem processFiles_sigBuf_of_not_empty :
    ∀ (files : List Workbook) (f0 : ℕ) (st : MergeSt), st.sigBuf ≠ [] →
      (processFiles config sc ec f0 files st).sigBuf = st.sigBuf := by
  intro files
  induction files with
  | nil => intro f0 st _; rfl
  | cons wb0 rest ih =>
    intro f0 st hne
    simp only [processFiles]
    rw [ih (f0 + 1) _ (by rw [processSheets_sigBuf_of_not_empty config sc ec f0 wb0 0 st hne]; exact hne)]
    exact processSheets_sigBuf_of_not_empty config sc ec f0 wb0 0 st hne

theorem processFiles_sigBuf_of_empty :
    ∀ (files : List Workbook) (f0 : ℕ) (st : MergeSt), st.sigBuf = [] →
      (processFiles config sc ec f0 files st).sigBuf = firstCapture config sc ec f0 files := by
  intro files
  induction files with
  | nil => intro f0 st h; exact h
  | cons wb0 rest ih =>
    intro f0 st hemp
    simp only [processFiles, firstCapture]
    have h0 : (processSheets config sc ec f0 0 wb0 st).sigBuf
        = firstCaptureSheets config sc ec f0 0 wb0 :=
      processSheets_sigBuf_of_empty config sc ec f0 wb0 0 st hemp
    rcases hc : firstCaptureSheets config sc ec f0 0 wb0 with _ | ⟨c0, cs⟩
    · rw [ih (f0 + 1) _ (by rw [h0, hc])]
      simp [hc]
    · rw [processFiles_sigBuf_of_not_empty config sc ec rest (f0 + 1) _ (by rw [h0, hc]; simp)]
      rw [h0, hc]
      simp

theorem firstCaptureSheets_struct (f : ℕ) :
    ∀ (wbs : List (String × Sheet)) (s0 : ℕ),
      firstCaptureSheets config sc ec f s0 wbs = []
      ∨ ∃ (j : ℕ) (nm : String) (sheet : Sheet) (k : ℕ),
          wbs.get? j = some (nm, sheet) ∧ config.includeSignature = true
            ∧ findSignatureRow sheet = some k
            ∧ firstCaptureSheets config sc ec f s0 wbs
                = captureList f (s0 + j) sheet k (lastRowNumber sheet) := by
  intro wbs
  induction wbs with
  | nil => intro s0; exact Or.inl rfl
  | cons p rest ih =>
    intro s0
    obtain ⟨nm0, sh0⟩ := p
    simp only [firstCaptureSheets]
    rcases hc : sheetCapture config sc ec f s0 sh0 with _ | ⟨c0, cs⟩
    · simp only [List.isEmpty_nil, if_pos]
      rcases ih (s0 + 1) with h | ⟨j, nm, sheet, k, hj, hinc, hsig, heq⟩
      · exact Or.inl h
      · refine Or.inr ⟨j + 1, nm, sheet, k, by simpa using hj, hinc, hsig, ?_⟩
        rw [heq]
        congr 1
        omega
    · rcases walkRows_snd_structure config sc ec sh0 (findTotalRow sh0) (findSignatureRow sh0)
          (lastRowNumber sh0) f s0 (scanRange config sh0) true with h | ⟨hinc, -, k, hsig, heq⟩
      · exact absurd (hc ▸ h : (c0 :: cs : List (Src × Row)) = []) (by simp)
      · refine Or.inr ⟨0, nm0, sh0, k, rfl, hinc, hsig, ?_⟩
        have h2 : sheetCapture config sc ec f s0 sh0 = captureList f s0 sh0 k (lastRowNumber sh0) := heq
        rw [hc] at h2
        simp only [List.isEmpty_cons, if_neg (by simp : ¬(false = true))]
        simpa using h2

theorem firstCapture_struct :
    ∀ (files : List Workbook) (f0 : ℕ),
      firstCapture config sc ec f0 files = []
      ∨ ∃ (i j : ℕ) (nm : String) (wb : Workbook) (sheet : Sheet) (k : ℕ),
          files.get? i = some wb ∧ wb.get? j = some (nm, sheet)
            ∧ config.includeSignature = true ∧ findSignatureRow sheet = some k
            ∧ firstCapture config sc ec f0 files
                = captureList (f0 + i) j sheet k (lastRowNumber sheet) := by
  intro files
  induction files with
  | nil => intro f0; exact Or.inl rfl
  | cons wb0 rest ih =>
    intro f0
    simp only [firstCapture]
    rcases hc : firstCaptureSheets config sc ec f0 0 wb0 with _ | ⟨c0, cs⟩
    · simp only [List.isEmpty_nil, if_pos]
      rcases ih (f0 + 1) with h | ⟨i, j, nm, wb, sheet, k, hi, hj, hinc, hsig, heq⟩
      · exact Or.inl h
      · refine Or.inr ⟨i + 1, j, nm, wb, sheet, k, by simpa using hi, hj, hinc, hsig, ?_⟩
        rw [heq]
        congr 1
        omega
    · rcases firstCaptureSheets_struct config sc ec f0 wb0 0 with h | ⟨j, nm, sheet, k, hj, hinc, hsig, heq⟩
      · exact absurd (hc ▸ h : (c0 :: cs : List (Src × Row)) = []) (by simp)
      · refine Or.inr ⟨0, j, nm, wb0, sheet, k, rfl, hj, hinc, hsig, ?_⟩
        rw [hc] at heq
        simp only [List.isEmpty_cons, if_neg (by simp : ¬(false = true))]
        simpa using heq

theorem firstCapture_kinds (files : List Workbook) (f0 : ℕ) :
    ∀ e ∈ firstCapture config sc ec f0 files, e.1.kind = .sig := by
  intro e he
  rcases firstCapture_struct config sc ec files f0 with h | ⟨i, j, nm, wb, sheet, k, -, -, -, -, heq⟩
  · rw [h] at he
    exact absurd he (List.not_mem_nil e)
  · rw [heq] at he
    obtain ⟨rn, -, hrn⟩ := List.mem_map.mp he
    rw [← hrn]

end FoldLemmas

/-! ## C2 — sheets named "Consolidated" are not skipped -/

section RenameLemmas

variable (config : MergeConfig) (sc ec : ℕ)

theorem processSheets_rename (f : ℕ) (g : String → String) :
    ∀ (wbs : List (String × Sheet)) (s0 : ℕ) (st : MergeSt),
      processSheets config sc ec f s0 (wbs.map (fun p => (g p.1, p.2))) st
        = processSheets config sc ec f s0 wbs st := by
  intro wbs
  induction wbs with
  | nil => intro s0 st; rfl
  | cons p rest ih =>
    intro s0 st
    obtain ⟨nm, sheet⟩ := p
    simp only [List.map_cons, processSheets]
    exact ih (s0 + 1) _

theorem processFiles_rename (g : String → String) :
    ∀ (files : List Workbook) (f0 : ℕ) (st : MergeSt),
      processFiles config sc ec f0 (renameSheets g files) st
        = processFiles config sc ec f0 files st := by
  intro files
  induction files with
  | nil => intro f0 st; rfl
  | cons wb rest ih =>
    intro f0 st
    simp only [renameSheets, List.map_cons, processFiles]
    rw [show (List.map (fun wb => List.map (fun p => (g p.1, p.2)) wb) rest : List Workbook)
        = renameSheets g rest from rfl]
    rw [ih (f0 + 1), processSheets_rename config sc ec f0 g wb 0 st]

end RenameLemmas

/-- C2, counterexample: an input sheet named "Consolidated" is processed
like any other sheet — its data row (row 2) is scanned, classified and
copied into the merged output. -/
theorem C2_counterexample_consolidated_sheet_copied :
    wbWithConsolidated.get? 1 = some ("Consolidated", [[strCell "Name"], [strCell "z"]])
    ∧ (⟨⟨0, 1, 2, .data⟩, copyFresh [strCell "z"] 1 2⟩ : OutRow)
        ∈ mergeExcelFiles [wbWithConsolidated] cfgAB := by decide

/-- C2 (amended): `mergeExcelFiles` never reads sheet names at all — the
merge result is invariant under renaming every input sheet (so a sheet
named "Consolidated" is processed exactly like any other input sheet,
not skipped). -/
theorem C2_sheet_names_ignored (config : MergeConfig) (files : List Workbook)
    (g : String → String) :
    mergeExcelFiles (renameSheets g files) config = mergeExcelFiles files config := by
  simp only [mergeExcelFiles, mergeState]
  rw [processFiles_rename]

/-! ## C1 — the data-row range of subsequent sheets -/

/-- C1, counterexample: with `startRow = 2`, the second file's row 2 — its
own repeated table-header row `["Name", "Qty"]` — is scanned and copied
into the output as a data row, although the claim says subsequent sheets
are scanned only from `startRow + 1` and that this row is neither
scanned nor copied. -/
theorem C1_counterexample_second_file_header_copied :
    cfgAB.startRow = 2
    ∧ getRow [[strCell "Report"], [strCell "Name", strCell "Qty"], [strCell "b", numCell 2]] 2
        = [strCell "Name", strCell "Qty"]
    ∧ (⟨⟨1, 0, 2, .data⟩, copyFresh [strCell "Name", strCell "Qty"] 1 2⟩ : OutRow)
        ∈ mergeExcelFiles [wbFirst, wbSecond] cfgAB := by decide

/-- C1 (amended): the data-row range scanned is `[startRow, lastRow]` for
every sheet, first or subsequent: any sheet of any input file whose row
at `startRow` is not its total row, not at-or-past its signature row, and
not skipped by the subtotal heuristic gets that row copied to the output
as a plain data row — in particular a subsequent sheet's repeated
table-header row at `startRow` is scanned and copied. -/
theorem C1_every_sheet_scanned_from_startRow (config : MergeConfig) (files : List Workbook)
    (f s : ℕ) (nm : String) (wb : Workbook) (sheet : Sheet)
    (hw : files.get? f = some wb) (hs : wb.get? s = some (nm, sheet))
    (hlast : config.startRow ≤ lastRowNumber sheet)
    (htot : findTotalRow sheet ≠ some config.startRow)
    (hsig : ∀ k, findSignatureRow sheet = some k → config.startRow < k)
    (hsub : config.includeTotal = true
      ∨ isSubtotalRow (getRow sheet config.startRow) (columnLetterToNumber config.startColumn)
          (columnLetterToNumber config.endColumn) = false) :
    (⟨⟨f, s, config.startRow, .data⟩,
        copyFresh (getRow sheet config.startRow) (columnLetterToNumber config.startColumn)
          (columnLetterToNumber config.endColumn)⟩ : OutRow)
      ∈ mergeExcelFiles files config := by
  set sc := columnLetterToNumber config.startColumn with hscdef
  set ec := columnLetterToNumber config.endColumn with hecdef
  obtain ⟨m, hm⟩ : ∃ m, lastRowNumber sheet + 1 - config.startRow = m + 1 :=
    ⟨lastRowNumber sheet - config.startRow, by omega⟩
  have hscan : scanRange config sheet
      = config.startRow :: List.range' (config.startRow + 1) m := by
    unfold scanRange
    rw [hm, List.range'_succ]
  have hwalk :
      (⟨⟨f, s, config.startRow, .data⟩, copyFresh (getRow sheet config.startRow) sc ec⟩ : OutRow)
        ∈ (walkRows config sc ec sheet (findTotalRow sheet) (findSignatureRow sheet)
            (lastRowNumber sheet) f s true (scanRange config sheet)).1 := by
    rw [hscan]
    simp only [walkRows]
    have h1 : ¬((findTotalRow sheet).isSome = true
        ∧ config.startRow = (findTotalRow sheet).getD 0) := by
      rcases ht : findTotalRow sheet with _ | t
      · rintro ⟨hi, -⟩; simp at hi
      · rintro ⟨-, he⟩
        exact htot (by rw [ht, he, Option.getD_some])
    have h2 : ¬((findSignatureRow sheet).isSome = true
        ∧ (findSignatureRow sheet).getD 0 ≤ config.startRow) := by
      rcases hsr : findSignatureRow sheet with _ | k
      · rintro ⟨hi, -⟩; simp at hi
      · rintro ⟨-, hle⟩
        have := hsig k hsr
        rw [Option.getD_some] at hle
        omega
    have h3 : ¬(config.includeTotal = false
        ∧ isSubtotalRow (getRow sheet config.startRow) sc ec = true) := by
      rcases hsub with h | h
      · rintro ⟨hf, -⟩; rw [h] at hf; exact Bool.noConfusion hf
      · rintro ⟨-, ht⟩; rw [h] at ht; exact Bool.noConfusion ht
    rw [if_neg h1, if_neg h2, if_neg h3]
    exact List.mem_cons_self _ _
  have hstep := processFiles_mem_intro config sc ec files f 0
    { out := [], isFirstSheet := true, sigBuf := [] } wb hw s nm sheet hs _
    (by simpa using hwalk)
  show _ ∈ (mergeState config sc ec files).out ++ _
  exact List.mem_append_left _ hstep

/-- C1, witness: the amended theorem applied to the second input file of
the concrete two-file merge (its table-header row at `startRow = 2` is a
plain data row there). -/
theorem C1_witness :
    (⟨⟨1, 0, cfgAB.startRow, .data⟩,
        copyFresh (getRow [[strCell "Report"], [strCell "Name", strCell "Qty"], [strCell "b", numCell 2]]
          cfgAB.startRow) (columnLetterToNumber cfgAB.startColumn)
          (columnLetterToNumber cfgAB.endColumn)⟩ : OutRow)
      ∈ mergeExcelFiles [wbFirst, wbSecond] cfgAB :=
  C1_every_sheet_scanned_from_startRow cfgAB [wbFirst, wbSecond] 1 0 "Sheet1"
    wbSecond [[strCell "Report"], [strCell "Name", strCell "Qty"], [strCell "b", numCell 2]]
    (by decide) (by decide) (by decide) (by decide)
    (by
      intro k h
      have hn : findSignatureRow
          [[strCell "Report"], [strCell "Name", strCell "Qty"], [strCell "b", numCell 2]] = none := by
        decide
      rw [hn] at h
      exact Option.noConfusion h)
    (Or.inl (by decide))

/-! ## C4 — the signature section is captured once, appended last -/

/-- C4, counterexample: the first input sheet exhibits a signature
(keyword at row 1), but — because its data-row walk `[2, 1]` is empty —
the captured signature block comes from the *second* file, not from the
first sheet that exhibits one, as the claim states. -/
theorem C4_counterexample_capture_not_from_first_exhibiting_sheet :
    cfgSig.includeSignature = true
    ∧ findSignatureRow [[strCell "Signature of sender"]] = some 1
    ∧ ((mergeExcelFiles [wbSigOnly, wbSigBlock] cfgSig).filter
          (fun e => e.1.kind == RowKind.sig)).map (fun e => e.1.file) = [1, 1] := by decide

/-- C4 (amended): across one whole merge, the signature section is
captured at most once — by the first sheet, in file-then-sheet
processing order, whose data-row walk reaches its detected signature row
(`firstCapture`); the captured block consists of that single sheet's
rows from its detected signature row through its last row, in order; and
it is appended exactly once, strictly after every data, total and header
row of all files. -/
theorem C4_signature_single_block_at_end (config : MergeConfig) (files : List Workbook) :
    mergeExcelFiles files config
        = (mergeState config (columnLetterToNumber config.startColumn)
              (columnLetterToNumber config.endColumn) files).out
          ++ ((mergeState config (columnLetterToNumber config.startColumn)
              (columnLetterToNumber config.endColumn) files).sigBuf.map
                (fun e => (e.1, copyFresh e.2 (columnLetterToNumber config.startColumn)
                  (columnLetterToNumber config.endColumn))))
    ∧ (∀ e ∈ (mergeState config (columnLetterToNumber config.startColumn)
          (columnLetterToNumber config.endColumn) files).out, e.1.kind ≠ .sig)
    ∧ (mergeState config (columnLetterToNumber config.startColumn)
          (columnLetterToNumber config.endColumn) files).sigBuf
        = firstCapture config (columnLetterToNumber config.startColumn)
            (columnLetterToNumber config.endColumn) 0 files
    ∧ (firstCapture config (columnLetterToNumber config.startColumn)
          (columnLetterToNumber config.endColumn) 0 files = []
        ∨ ∃ (f s : ℕ) (nm : String) (wb : Workbook) (sheet : Sheet) (k : ℕ),
            files.get? f = some wb ∧ wb.get? s = some (nm, sheet)
              ∧ config.includeSignature = true ∧ findSignatureRow sheet = some k
              ∧ firstCapture config (columnLetterToNumber config.startColumn)
                  (columnLetterToNumber config.endColumn) 0 files
                  = captureList f s sheet k (lastRowNumber sheet)) := by
  set sc := columnLetterToNumber config.startColumn
  set ec := columnLetterToNumber config.endColumn
  refine ⟨rfl, ?_, ?_, ?_⟩
  · intro e he
    rcases processFiles_mem_elim config sc ec files 0
        { out := [], isFirstSheet := true, sigBuf := [] } e he with h | ⟨i, wb, -, j, nm, sheet, -, b, eb, hmem⟩
    · exact absurd h (List.not_mem_nil e)
    · exact (processSheet_fst_mem config sc ec (0 + i) j b eb sheet e hmem).2.2.1
  · exact processFiles_sigBuf_of_empty config sc ec files 0 _ rfl
  · rcases firstCapture_struct config sc ec files 0 with h | ⟨i, j, nm, wb, sheet, k, hi, hj, hinc, hsig, heq⟩
    · exact Or.inl h
    · exact Or.inr ⟨i, j, nm, wb, sheet, k, by simpa using hi, hj, hinc, hsig, by simpa using heq⟩

/-- C4, witness: the amended theorem applied to the concrete two-file
input — the head of the merged output (the first file's copied header
row) is not a signature row. -/
theorem C4_witness :
    (⟨⟨0, 0, 1, .header⟩, copyFresh [strCell "Signature of sender"] 1 2⟩ : OutRow).1.kind
      ≠ RowKind.sig :=
  (C4_signature_single_block_at_end cfgSig [wbSigOnly, wbSigBlock]).2.1
    ⟨⟨0, 0, 1, .header⟩, copyFresh [strCell "Signature of sender"] 1 2⟩ (by decide)

/-! ## C10 — a signature row at or before `startRow` -/

/-- C10: if a sheet's detected signature row is at or before
`config.startRow`, the merge copies no data rows from that sheet — every
output row attributed to it is a header, signature, or total row, and a
total row only when it coincides with `startRow` (the first scanned row)
and totals are included. -/
theorem C10_early_signature_blocks_data_rows (config : MergeConfig) (files : List Workbook)
    (f s : ℕ) (nm : String) (wb : Workbook) (sheet : Sheet)
    (hw : files.get? f = some wb) (hs : wb.get? s = some (nm, sheet))
    (k : ℕ) (hsig : findSignatureRow sheet = some k) (hk : k ≤ config.startRow) :
    ∀ e ∈ mergeExcelFiles files config, e.1.file = f → e.1.sheet = s →
      e.1.kind ≠ .data
        ∧ (e.1.kind = .total → e.1.row = config.startRow ∧ config.includeTotal = true) := by
  set sc := columnLetterToNumber config.startColumn
  set ec := columnLetterToNumber config.endColumn
  intro e he hef hes
  rcases List.mem_append.mp he with hout | hsigpart
  · rcases processFiles_mem_elim config sc ec files 0
        { out := [], isFirstSheet := true, sigBuf := [] } e hout
      with h | ⟨i, wb', hi, j, nm', sheet', hj, b, eb, hmem⟩
    · exact absurd h (List.not_mem_nil e)
    · obtain ⟨hfile, hsheet, -, hrest⟩ := processSheet_fst_mem config sc ec (0 + i) j b eb sheet' e hmem
      have hif : i = f := by omega
      have hjs : j = s := by omega
      rw [hif] at hi
      rw [hw] at hi
      injection hi with hi
      subst hi
      rw [hjs] at hj
      rw [hs] at hj
      injection hj with hj
      injection hj with hj1 hj2
      subst hj2
      rcases hrest with hhead | hwalk
      · constructor
        · rw [hhead]; simp
        · intro ht; rw [hhead] at ht; exact absurd ht (by simp)
      · rw [hsig] at hwalk
        rw [show scanRange config sheet
            = List.range' config.startRow (lastRowNumber sheet + 1 - config.startRow) from rfl] at hwalk
        rw [walkRows_sig_early config sc ec sheet (findTotalRow sheet) (lastRowNumber sheet)
          (0 + i) j k eb _ config.startRow hk] at hwalk
        by_cases hcond : findTotalRow sheet = some config.startRow ∧ config.includeTotal = true
          ∧ 0 < lastRowNumber sheet + 1 - config.startRow
        · rw [if_pos hcond] at hwalk
          rcases List.mem_cons.mp hwalk with rfl | habs
          · exact ⟨by simp, fun _ => ⟨rfl, hcond.2.1⟩⟩
          · exact absurd habs (List.not_mem_nil e)
        · rw [if_neg hcond] at hwalk
          exact absurd hwalk (List.not_mem_nil e)
  · obtain ⟨e1, he1, hcopy⟩ := List.mem_map.mp hsigpart
    have hbuf : (mergeState config sc ec files).sigBuf = firstCapture config sc ec 0 files :=
      processFiles_sigBuf_of_empty config sc ec files 0 _ rfl
    rw [hbuf] at he1
    have hkind : e1.1.kind = .sig := firstCapture_kinds config sc ec files 0 e1 he1
    rw [← hcopy]
    constructor
    · show e1.1.kind ≠ .data
      rw [hkind]; simp
    · intro ht
      rw [hkind] at ht
      exact absurd ht (by simp)

/-- C10, witness: applied to a concrete sheet whose signature keyword is
in a header cell (row 1) above the table and whose total row coincides
with `startRow = 2`: the total-row entry the merge produces for it is not
a data row. -/
theorem C10_witness :
    (⟨⟨0, 0, 2, .total⟩, copyFresh (getRow sheetSigAbove 2) 1 2⟩ : OutRow).1.kind
      ≠ RowKind.data :=
  (C10_early_signature_blocks_data_rows cfgSig [wbSigAbove] 0 0 "S" wbSigAbove sheetSigAbove
    (by decide) (by decide) 1 (by decide) (by decide)
    ⟨⟨0, 0, 2, .total⟩, copyFresh (getRow sheetSigAbove 2) 1 2⟩ (by decide) rfl rfl).1

end ExcelUtils
